import Mathlib

/-!
Shallow embedding of the VocaBox CSV-backed record store
(src/vocabox/data.py and src/vocabox/routes.py).

Strings are modelled by Lean `String` (a structure over `List Char`);
the character-level cores of the codec work on `List Char` and are
wrapped at the `String` boundary.  Python `None` values that flow into
record fields (only possible for rows shorter than the header) are
rendered as the empty string, which is how every consumer in the
repository treats them (`value or ''`).
-/

namespace VocaBox

/-- The record type, from the `Vocab` dataclass in src/vocabox/data.py. -/
structure Vocab where
  id : String
  set : String
  word : String
  definition : String
deriving DecidableEq, Repr

/-- Python `str.strip()` on a record field: drop leading and trailing
whitespace characters (we model Python whitespace with `Char.isWhitespace`). -/
def pyStrip (s : String) : String :=
  (((s.toList.dropWhile Char.isWhitespace).reverse.dropWhile Char.isWhitespace).reverse).asString

/-- `text.replace('"', '""')` from `_csv_ensure_quotes`: double every
embedded double-quote character. -/
def escapeQuotes : List Char → List Char
  | [] => []
  | c :: cs => if c = '"' then '"' :: '"' :: escapeQuotes cs else c :: escapeQuotes cs

/-- Character-list core of `_csv_ensure_quotes` (src/vocabox/data.py):
double embedded quotes, then wrap the field in double quotes when forced
or when the escaped text contains a comma, a quote or a newline. -/
def ensureQuotesL (v : List Char) (force : Bool) : List Char :=
  let t := escapeQuotes v
  if force || t.any (fun c => c = ',' || c = '"' || c = '\n') then
    '"' :: (t ++ ['"'])
  else t

/-- `_csv_ensure_quotes(value, force_quotes)` at the `String` level.
`(value or '')` is the identity on strings. -/
def csv_ensure_quotes (value : String) (force : Bool) : String :=
  (ensureQuotesL value.toList force).asString

/-- One encoded data line of `write_csv`: the four fields joined with
commas (the `definition` column is always force-quoted) plus a newline. -/
def encodeRowL (r : Vocab) : List Char :=
  ensureQuotesL r.id.toList false ++
    ',' :: (ensureQuotesL r.set.toList false ++
      ',' :: (ensureQuotesL r.word.toList false ++
        ',' :: (ensureQuotesL r.definition.toList true ++ ['\n'])))

/-- The data lines of `write_csv`, one per record, in order. -/
def encodeRowsL : List Vocab → List Char
  | [] => []
  | r :: rs => encodeRowL r ++ encodeRowsL rs

/-- The header line `write_csv` emits first. -/
def headerL : List Char := "id,set,word,definition\n".toList

/-- `write_csv(rows)` as the full text written to the file. -/
def write_csv (rows : List Vocab) : String :=
  (headerL ++ encodeRowsL rows).asString

/-- Scanner mode of the CSV reader (Python's `csv` module state machine,
excel dialect, as used by `csv.DictReader` in `read_csv`). -/
inductive ScanMode
  | fieldStart
  | unquoted
  | quoted
  | afterQuote
deriving DecidableEq, Repr

/-- Standard quoted-field CSV scanning, one character at a time, as
Python's `csv.reader` does on a file opened with `newline=''`:
a field beginning with a quote runs to the closing quote (a doubled
quote decodes to one literal quote, and delimiters and line breaks
inside it are literal); an unquoted field runs to the next comma or
line break; `\r`, `\n` and `\r\n` all terminate a record, and blank
lines yield no record (as `csv.DictReader` skips empty rows).
Arguments: remaining input, mode, current field, completed fields of
the current record, completed records. -/
def csvScan : List Char → ScanMode → List Char → List (List Char) →
    List (List (List Char)) → List (List (List Char))
  | [], .fieldStart, _acc, fs, rows =>
    if fs = [] then rows else rows ++ [fs ++ [[]]]
  | [], .unquoted, acc, fs, rows => rows ++ [fs ++ [acc]]
  | [], .quoted, acc, fs, rows => rows ++ [fs ++ [acc]]
  | [], .afterQuote, acc, fs, rows => rows ++ [fs ++ [acc]]
  | c :: cs, .fieldStart, _acc, fs, rows =>
    if c = '"' then csvScan cs .quoted [] fs rows
    else if c = ',' then csvScan cs .fieldStart [] (fs ++ [[]]) rows
    else if c = '\n' ∨ c = '\r' then
      if fs = [] then csvScan cs .fieldStart [] [] rows
      else csvScan cs .fieldStart [] [] (rows ++ [fs ++ [[]]])
    else csvScan cs .unquoted [c] fs rows
  | c :: cs, .unquoted, acc, fs, rows =>
    if c = ',' then csvScan cs .fieldStart [] (fs ++ [acc]) rows
    else if c = '\n' ∨ c = '\r' then
      csvScan cs .fieldStart [] [] (rows ++ [fs ++ [acc]])
    else csvScan cs .unquoted (acc ++ [c]) fs rows
  | c :: cs, .quoted, acc, fs, rows =>
    if c = '"' then csvScan cs .afterQuote acc fs rows
    else csvScan cs .quoted (acc ++ [c]) fs rows
  | c :: cs, .afterQuote, acc, fs, rows =>
    if c = '"' then csvScan cs .quoted (acc ++ ['"']) fs rows
    else if c = ',' then csvScan cs .fieldStart [] (fs ++ [acc]) rows
    else if c = '\n' ∨ c = '\r' then
      csvScan cs .fieldStart [] [] (rows ++ [fs ++ [acc]])
    else csvScan cs .unquoted (acc ++ [c]) fs rows

/-- All records of a CSV text, each a list of string fields. -/
def parseCSV (text : String) : List (List String) :=
  (csvScan text.toList .fieldStart [] [] []).map (fun row => row.map List.asString)

/-- `dict(zip(fieldnames, row)).get(key)` rendered into `String`:
later duplicate fieldnames win (dict construction), names beyond the
row length are dropped by `zip` (Python pads them with `None`, which
every consumer in the repository collapses to `''`), and a missing key
yields the empty string. -/
def dget (names row : List String) (key : String) : String :=
  (((names.zip row).reverse).lookup key).getD ""

/-- One data row of `read_csv` (src/vocabox/data.py): field values are
looked up by header name; the `definition` value falls back to a
`definition ` (trailing-space) column when empty. -/
def rowVocab (names row : List String) : Vocab :=
  let d := dget names row "definition"
  { id := dget names row "id"
    set := dget names row "set"
    word := dget names row "word"
    definition := if d = "" then dget names row "definition " else d }

/-- `read_csv` applied to the file text: the first record is the header
(`csv.DictReader` fieldnames), each later record becomes a `Vocab`.
Accessing `r['id']` raises when `id` is not a header column and at
least one data row exists; that failure is `none`. -/
def read_csv (text : String) : Option (List Vocab) :=
  match parseCSV text with
  | [] => some []
  | names :: dataRows =>
    if dataRows = [] ∨ names.contains "id" then
      some (dataRows.map (rowVocab names))
    else none

/-- ASCII decimal digit test (Python `int` also accepts non-ASCII
decimal digits; no id or query string in the repository uses them). -/
def isDig (c : Char) : Bool := '0' ≤ c ∧ c ≤ '9'

/-- Digit-and-underscore validity after a first digit, per Python `int`:
an underscore must be followed by a digit (so none trailing or doubled). -/
def digitsTail : List Char → Bool
  | [] => true
  | '_' :: c :: cs => isDig c && digitsTail cs
  | c :: cs => isDig c && digitsTail cs

/-- A valid Python `int` digit sequence: nonempty, starts with a digit,
underscores only between digits. -/
def validDigits : List Char → Bool
  | [] => false
  | c :: cs => isDig c && digitsTail cs

/-- Value of a digit list in base 10. -/
def digitsVal (ds : List Char) : Nat :=
  ds.foldl (fun a c => a * 10 + (c.toNat - '0'.toNat)) 0

/-- Python `int(s)`: strip surrounding whitespace, allow one optional
sign, then a valid digit sequence (underscores are dropped from the
value); any other shape raises, modelled as `none`. -/
def pyInt (s : String) : Option Int :=
  match (pyStrip s).toList with
  | '+' :: ds =>
    if validDigits ds then some (digitsVal (ds.filter (fun c => c ≠ '_'))) else none
  | '-' :: ds =>
    if validDigits ds then some (-(digitsVal (ds.filter (fun c => c ≠ '_')) : Int)) else none
  | ds =>
    if validDigits ds then some (digitsVal (ds.filter (fun c => c ≠ '_'))) else none

/-- The fold inside `next_numeric_id`: running maximum of the ids that
parse as integers, starting from 0, skipping parse failures. -/
def maxNumericId (rows : List Vocab) : Int :=
  rows.foldl (fun m r => match pyInt r.id with | some k => max m k | none => m) 0

/-- `next_numeric_id(rows)` from src/vocabox/data.py: one greater than
the running maximum when that is nonnegative (it always is, starting
from 0), else 1, rendered with Python `str`. -/
def next_numeric_id (rows : List Vocab) : String :=
  let m := maxNumericId rows
  toString (if 0 ≤ m then m + 1 else 1)

/-- JSON payload of `POST /api/vocabs`: each key may be absent
(`payload.get(k)` then yields `None`, and `(None or '')` is `''`). -/
structure UpsertPayload where
  id : Option String
  set : Option String
  word : Option String
  definition : Option String
deriving DecidableEq, Repr

/-- The in-place replace loop of `api_upsert`: replace the first record
whose id matches and stop; report whether a match was found. -/
def replaceFirstById (vid : String) (nr : Vocab) : List Vocab → List Vocab × Bool
  | [] => ([], false)
  | r :: rs =>
    if r.id = vid then (nr :: rs, true)
    else
      let p := replaceFirstById vid nr rs
      (r :: p.1, p.2)

/-- The local `vid` of `api_upsert`: the trimmed payload id
(`(payload.get('id') or '').strip()`), or a fresh allocated id when
that is empty. -/
def resolveId (rows : List Vocab) (p : UpsertPayload) : String :=
  if pyStrip (p.id.getD "") = "" then next_numeric_id rows
  else pyStrip (p.id.getD "")

/-- The local `new_row` of `api_upsert`: resolved id and the remaining
payload fields, each defaulted to the empty string and trimmed. -/
def newRecOf (rows : List Vocab) (p : UpsertPayload) : Vocab :=
  { id := resolveId rows p
    set := pyStrip (p.set.getD "")
    word := pyStrip (p.word.getD "")
    definition := pyStrip (p.definition.getD "") }

/-- The pure read-modify part of `api_upsert` (src/vocabox/routes.py):
trim every field, allocate an id when the trimmed id is empty, replace
the first matching record or append, and return the new record list
together with the resolved id. -/
def upsertRows (rows : List Vocab) (p : UpsertPayload) : List Vocab × String :=
  (if (replaceFirstById (resolveId rows p) (newRecOf rows p) rows).2 then
     (replaceFirstById (resolveId rows p) (newRecOf rows p) rows).1
   else rows ++ [newRecOf rows p],
   resolveId rows p)

/-- `POST /api/vocabs` as a transition on the stored record list; the
second component models the JSON response `{'ok': True, 'id': vid}`. -/
def api_upsert (file : List Vocab) (p : UpsertPayload) :
    List Vocab × (Bool × String) :=
  let u := upsertRows file p
  (u.1, (true, u.2))

/-- `DELETE /api/vocabs/<vid>` (src/vocabox/routes.py): keep the records
whose id differs, always answer `{'ok': True}`. -/
def api_delete (file : List Vocab) (vid : String) : List Vocab × Bool :=
  (file.filter (fun r => r.id != vid), true)

/-- Candidate pool of `GET /api/test`: the whole list when
`mode == 'all'` or `set == 'All'`, otherwise the records of the named
set (`(r.set or '') == set_name` is `r.set == set_name` on strings). -/
def poolFor (rows : List Vocab) (mode setName : String) : List Vocab :=
  if mode = "all" ∨ setName = "All" then rows
  else rows.filter (fun r => r.set == setName)

/-- `pool[:count]` after `random.shuffle(pool)`: the shuffle is
modelled by quantifying over any permutation of the pool. -/
def api_test_items (shuffled : List Vocab) (count : Int) : List Vocab :=
  shuffled.take count.toNat

/-- Resolution of the `count` query parameter of `GET /api/test`:
`max(1, min(50, int(request.args.get('count', '25'))))`; a `count`
that `int` rejects raises, modelled as `none`. -/
def api_test_count (countParam : Option String) : Option Int :=
  (pyInt (countParam.getD "25")).map (fun n => max 1 (min 50 n))

/-- Resolution of the `set` query parameter of `GET /api/test`. -/
def api_test_setName (setParam : Option String) : String :=
  setParam.getD "All"

/-- One imported row of `api_import_csv` (src/vocabox/routes.py):
`(r.get('id') or '').strip()`, an empty id allocated from the rows
already accumulated in this batch, and untrimmed remaining fields. -/
def importVocab (names row : List String) (acc : List Vocab) : Vocab :=
  let rid0 := pyStrip (dget names row "id")
  { id := if rid0 = "" then next_numeric_id acc else rid0
    set := dget names row "set"
    word := dget names row "word"
    definition := dget names row "definition" }

/-- The record list built by `api_import_csv` from the request body:
decode the text, then accumulate rows in order, allocating blank ids
against the in-progress batch. -/
def importRows (text : String) : List Vocab :=
  match parseCSV text with
  | [] => []
  | names :: dataRows =>
    dataRows.foldl (fun acc row => acc ++ [importVocab names row acc]) []

/-- `POST /api/import` as a transition on the stored record list: the
previous contents are never read; the response carries
`{'ok': True, 'count': len(rows)}`. -/
def api_import_csv (_file : List Vocab) (text : String) :
    List Vocab × (Bool × Nat) :=
  (importRows text, (true, (importRows text).length))

/-! ### Concurrency model for the mutating request path

`api_upsert` runs `read_csv()` (which acquires the store lock, reads,
and releases it), then computes the new record list in memory with no
lock held, then runs `write_csv(rows)` (which re-acquires the lock,
rewrites the file, and releases it).  Each of the three stages is one
atomic step of a thread; the file is the shared state. -/

/-- One in-flight `POST /api/vocabs` request: its payload, how far it
has run (0 = not started, 1 = after `read_csv`, 2 = after the
in-memory update, 3 = returned), and its thread-local record list. -/
structure ReqState where
  payload : UpsertPayload
  phase : Nat
  loc : List Vocab
deriving DecidableEq, Repr

/-- One atomic step of an upsert request thread: phase 0 is the
lock-protected `read_csv`, phase 1 the unlocked in-memory update,
phase 2 the lock-protected `write_csv`. -/
def stepReq (file : List Vocab) (t : ReqState) : List Vocab × ReqState :=
  match t.phase with
  | 0 => (file, { t with phase := 1, loc := file })
  | 1 => (file, { t with phase := 2, loc := (upsertRows t.loc t.payload).1 })
  | 2 => (t.loc, { t with phase := 3 })
  | _ => (file, t)

/-- Run two request threads under a schedule: `true` steps the first
thread, `false` the second. -/
def runSched : List Vocab → ReqState → ReqState → List Bool →
    List Vocab × ReqState × ReqState
  | file, a, b, [] => (file, a, b)
  | file, a, b, true :: s =>
    let st := stepReq file a
    runSched st.1 st.2 b s
  | file, a, b, false :: s =>
    let st := stepReq file b
    runSched st.1 a st.2 s

/-! ### Statement vocabulary and concrete fixtures -/

/-- The ids of a record list, in order. -/
def idsOf (rows : List Vocab) : List String := rows.map Vocab.id

/-- The ids that parse as Python integers, in order. -/
def parsedIds (rows : List Vocab) : List Int :=
  rows.filterMap (fun r => pyInt r.id)

/-- Modelled from the claim wording: one greater than the maximum
integer found among the parseable ids, `"1"` when none parse. -/
def specNextId (rows : List Vocab) : String :=
  match parsedIds rows with
  | [] => "1"
  | k :: ks => toString (ks.foldl max k + 1)

/-- A sequence of upserts applied to a starting record list. -/
def applyUpserts (rows : List Vocab) (ps : List UpsertPayload) : List Vocab :=
  ps.foldl (fun rs p => (upsertRows rs p).1) rows

/-- Fields of one record as character lists, in the column order
`write_csv` emits. -/
def recordFieldsL (r : Vocab) : List (List Char) :=
  [r.id.toList, r.set.toList, r.word.toList, r.definition.toList]

/-- No field of the record contains a carriage return.  (`\r` is not
among the comma/quote/newline characters the codec quotes; Python's
line splitting would cut an unquoted field at a bare `\r`.) -/
def noCR (r : Vocab) : Prop :=
  '\r' ∉ r.id.toList ∧ '\r' ∉ r.set.toList ∧
    '\r' ∉ r.word.toList ∧ '\r' ∉ r.definition.toList

instance (r : Vocab) : Decidable (noCR r) := by
  unfold noCR; infer_instance

/-- Upsert payload of a request creating record `A`. -/
def payloadA : UpsertPayload :=
  { id := some "A", set := some "sa", word := some "wa", definition := some "da" }

/-- Upsert payload of a request creating record `B`. -/
def payloadB : UpsertPayload :=
  { id := some "B", set := some "sb", word := some "wb", definition := some "db" }

/-- The record `payloadA` stores. -/
def recA : Vocab := { id := "A", set := "sa", word := "wa", definition := "da" }

/-- The record `payloadB` stores. -/
def recB : Vocab := { id := "B", set := "sb", word := "wb", definition := "db" }

/-- Request thread for `payloadA`, not yet started. -/
def reqA : ReqState := { payload := payloadA, phase := 0, loc := [] }

/-- Request thread for `payloadB`, not yet started. -/
def reqB : ReqState := { payload := payloadB, phase := 0, loc := [] }

/-- Ten records unrelated to the import example. -/
def tenOldRecords : List Vocab :=
  [ { id := "101", set := "Old", word := "w1", definition := "d1" },
    { id := "102", set := "Old", word := "w2", definition := "d2" },
    { id := "103", set := "Old", word := "w3", definition := "d3" },
    { id := "104", set := "Old", word := "w4", definition := "d4" },
    { id := "105", set := "Old", word := "w5", definition := "d5" },
    { id := "106", set := "Old", word := "w6", definition := "d6" },
    { id := "107", set := "Old", word := "w7", definition := "d7" },
    { id := "108", set := "Old", word := "w8", definition := "d8" },
    { id := "109", set := "Old", word := "w9", definition := "d9" },
    { id := "110", set := "Old", word := "w10", definition := "d10" } ]

/-- The two-record import text of the spec's example scenario. -/
def importExampleText : String :=
  "id,set,word,definition\n1,Numbers,one,The number after zero\n2,Numbers,two,The number after one\n"

/-- Import text whose first row has a blank id (allocated `1` against
the empty in-progress batch) and whose second row carries the explicit
id `1`. -/
def dupImportText : String :=
  "id,set,word,definition\n,A,w1,d1\n1,B,w2,d2\n"

/-! ### Theorems -/

/-- C1 (counterexample): the read-modify-write cycle of a mutating
request is NOT one critical section.  With the store initially empty,
interleaving two upsert requests step by step (both read, both update
in memory, both write) completes both requests (`phase = 3`) yet the
final file holds only the second request's record: the first request's
update is lost inside the window of the other, contradicting the
claim that no interleaving can produce a lost update. -/
theorem upsert_interleaving_loses_update :
  let res := runSched [] reqA reqB [true, false, true, false, true, false]
  res.2.1.phase = 3 ∧ res.2.2.phase = 3 ∧ recB ∈ res.1 ∧ recA ∉ res.1 := by
  decide

/-- C1 (amended): `read_csv` and `write_csv` are each individually
atomic under the store lock (they are single atomic steps of the
model), but the lock is released between a request's read and its
write, so the cycle spans two critical sections: serial schedules of
two upsert requests preserve both updates, while the interleaved
schedule completes both requests and loses the first one's update. -/
theorem store_ops_atomic_but_cycle_interleavable :
  (runSched [] reqA reqB [true, true, true, false, false, false]).1 = [recA, recB] ∧
  (runSched [] reqA reqB [false, false, false, true, true, true]).1 = [recB, recA] ∧
  (runSched [] reqA reqB [true, false, true, false, true, false]).1 = [recB] ∧
  (runSched [] reqA reqB [true, false, true, false, true, false]).2.1.phase = 3 ∧
  (runSched [] reqA reqB [true, false, true, false, true, false]).2.2.phase = 3 := by
  decide

/-- C4 (counterexample): on a store whose only id is `"-5"`,
`next_numeric_id` returns `"1"`, not the claimed one-greater-than-the-
maximum-integer-found `"-4"`: the fold starts at 0, so negative ids
never win the maximum. -/
theorem next_numeric_id_negative_counterexample :
  next_numeric_id [{ id := "-5", set := "", word := "", definition := "" }] = "1" ∧
  specNextId [{ id := "-5", set := "", word := "", definition := "" }] = "-4" ∧
  next_numeric_id [{ id := "-5", set := "", word := "", definition := "" }] ≠
    specNextId [{ id := "-5", set := "", word := "", definition := "" }] := by
  decide

/-- C10: `api_import_csv` does not enforce id uniqueness: importing a
text whose first data row has a blank id (allocated `"1"` against the
empty in-progress batch) and whose second row carries the explicit id
`"1"` stores two records sharing the id `"1"`. -/
theorem import_allows_duplicate_ids :
  (importRows dupImportText).map Vocab.id = ["1", "1"] ∧
  ¬ ((importRows dupImportText).map Vocab.id).Nodup := by
  decide

/-- C8: `POST /api/import` replaces the whole store: the stored result
is exactly the decoded rows (blank ids filled in), independent of the
previous contents, and the returned count is the number of records now
stored; in particular importing the spec's 2-record CSV over a store
of 10 unrelated records leaves exactly those 2 records. -/
theorem api_import_replaces_store (f g : List Vocab) (text : String) :
  (api_import_csv f text).1 = importRows text ∧
  api_import_csv f text = api_import_csv g text ∧
  (api_import_csv f text).2.2 = (api_import_csv f text).1.length ∧
  (api_import_csv tenOldRecords importExampleText).1 =
    [ { id := "1", set := "Numbers", word := "one", definition := "The number after zero" },
      { id := "2", set := "Numbers", word := "two", definition := "The number after one" } ] ∧
  (api_import_csv tenOldRecords importExampleText).2.2 = 2 := by
  refine ⟨rfl, rfl, rfl, by decide, by decide⟩

lemma maxNumericId_eq_foldl (rows : List Vocab) :
    ∀ a : Int,
      rows.foldl (fun m r => match pyInt r.id with | some k => max m k | none => m) a
        = (parsedIds rows).foldl max a := by
  induction rows with
  | nil => intro a; rfl
  | cons r rs ih =>
    intro a
    cases h : pyInt r.id with
    | none => simpa [List.foldl, parsedIds, List.filterMap_cons, h] using ih a
    | some k =>
      simp [List.foldl, parsedIds, List.filterMap_cons, h]
      exact ih (max a k)

lemma le_foldl_max (l : List Int) : ∀ a : Int, a ≤ l.foldl max a := by
  induction l with
  | nil => intro a; exact le_refl a
  | cons x xs ih => intro a; exact le_trans (le_max_left a x) (ih (max a x))

/-- C4 (amended): `next_numeric_id` parses each id as a base-10 integer
where possible, ignores unparsable ids, and returns one greater than
the maximum of 0 and the parsed ids, as a string; it returns `"1"`
when no numeric ids exist (and also whenever every numeric id is
negative, which is where the claim as stated fails). -/
theorem next_numeric_id_spec (rows : List Vocab) :
  next_numeric_id rows = toString ((parsedIds rows).foldl max 0 + 1) ∧
  (parsedIds rows = [] → next_numeric_id rows = "1") := by
  have hm : maxNumericId rows = (parsedIds rows).foldl max 0 :=
    maxNumericId_eq_foldl rows 0
  have h0 : (0 : Int) ≤ (parsedIds rows).foldl max 0 := le_foldl_max _ 0
  constructor
  · simp only [next_numeric_id, hm, if_pos h0]
  · intro he
    simp only [next_numeric_id, hm, he, if_pos h0]
    rfl

/-- C4 (witness): a store whose only id is non-numeric allocates `"1"`. -/
theorem next_numeric_id_spec_witness :
  parsedIds [{ id := "x", set := "", word := "", definition := "" }] = [] ∧
  next_numeric_id [{ id := "x", set := "", word := "", definition := "" }] = "1" :=
  ⟨by decide,
   (next_numeric_id_spec [{ id := "x", set := "", word := "", definition := "" }]).2
     (by decide)⟩

/-- C6: `DELETE /api/vocabs/<vid>` always reports success, removes
every record whose id equals `vid`, keeps all others in their stored
order (the result is a sublist), and leaves the store unchanged when
no record matches: delete is idempotent. -/
theorem api_delete_spec (rows : List Vocab) (vid : String) :
  (api_delete rows vid).2 = true ∧
  (∀ r ∈ (api_delete rows vid).1, r.id ≠ vid) ∧
  List.Sublist (api_delete rows vid).1 rows ∧
  (∀ r ∈ rows, r.id ≠ vid → r ∈ (api_delete rows vid).1) ∧
  ((∀ r ∈ rows, r.id ≠ vid) → (api_delete rows vid).1 = rows) := by
  refine ⟨rfl, ?_, ?_, ?_, ?_⟩
  · intro r hr
    have h2 := (List.mem_filter.mp hr).2
    simpa [bne_iff_ne] using h2
  · exact List.filter_sublist rows
  · intro r hr hne
    exact List.mem_filter.mpr ⟨hr, by simpa [bne_iff_ne] using hne⟩
  · intro h
    apply List.filter_eq_self.mpr
    intro r hr
    simpa [bne_iff_ne] using h r hr

/-- C6 (witness): deleting an absent id leaves the concrete store
unchanged; deleting `recA`'s id keeps `recB`. -/
theorem api_delete_spec_witness :
  ((api_delete [recA, recB] "zzz").1 = [recA, recB]) ∧
  recB ∈ (api_delete [recA, recB] "A").1 :=
  ⟨(api_delete_spec [recA, recB] "zzz").2.2.2.2 (by decide),
   (api_delete_spec [recA, recB] "A").2.2.2.1 recB (by decide) (by decide)⟩

/-- C9: when the `count` parameter of `GET /api/test` parses as an
integer `n` (default `"25"` when absent), the value used for sampling
is `max 1 (min 50 n)`, which lies in the inclusive range [1, 50]; an
absent `count` yields 25 and an absent `set` yields `"All"`. -/
theorem api_test_count_clamp (p : Option String) (n : Int)
    (h : pyInt (p.getD "25") = some n) :
  api_test_count p = some (max 1 (min 50 n)) ∧
  1 ≤ max 1 (min 50 n) ∧ max 1 (min 50 n) ≤ 50 ∧
  api_test_count none = some 25 ∧ api_test_setName none = "All" := by
  refine ⟨?_, le_max_left 1 _, ?_, by decide, rfl⟩
  · simp [api_test_count, h]
  · exact max_le (by norm_num) (min_le_left 50 n)

/-- C9 (witness): `count=999` is clamped to 50. -/
theorem api_test_count_clamp_witness :
  api_test_count (some "999") = some 50 :=
  ((api_test_count_clamp (some "999") 999 (by decide)).1).trans (by decide)

lemma rfb_not_found (vid : String) (nr : Vocab) :
    ∀ rows : List Vocab, (replaceFirstById vid nr rows).2 = false →
      (replaceFirstById vid nr rows).1 = rows ∧ ∀ r ∈ rows, r.id ≠ vid := by
  intro rows
  induction rows with
  | nil => intro _; exact ⟨rfl, by simp⟩
  | cons r rs ih =>
    intro h
    by_cases hr : r.id = vid
    · simp [replaceFirstById, hr] at h
    · simp only [replaceFirstById, if_neg hr] at h ⊢
      obtain ⟨h1, h2⟩ := ih h
      refine ⟨by rw [h1], ?_⟩
      intro x hx
      rcases List.mem_cons.mp hx with rfl | hx
      · exact hr
      · exact h2 x hx

lemma rfb_found_idsOf (vid : String) (nr : Vocab) (hnr : nr.id = vid) :
    ∀ rows : List Vocab, (replaceFirstById vid nr rows).2 = true →
      idsOf (replaceFirstById vid nr rows).1 = idsOf rows := by
  intro rows
  induction rows with
  | nil => intro h; simp [replaceFirstById] at h
  | cons r rs ih =>
    intro h
    by_cases hr : r.id = vid
    · simp [replaceFirstById, hr, idsOf, hnr]
    · simp only [replaceFirstById, if_neg hr] at h ⊢
      simp only [idsOf, List.map_cons]
      rw [show (replaceFirstById vid nr rs).1.map Vocab.id
          = idsOf (replaceFirstById vid nr rs).1 from rfl, ih h]
      rfl

lemma rfb_skip (vid : String) (nr : Vocab) :
    ∀ (pre : List Vocab) (x : Vocab) (post : List Vocab),
      (∀ y ∈ pre, y.id ≠ vid) → x.id = vid →
      replaceFirstById vid nr (pre ++ x :: post) = (pre ++ nr :: post, true) := by
  intro pre
  induction pre with
  | nil => intro x post _ hx; simp [replaceFirstById, hx]
  | cons y ys ih =>
    intro x post hpre hx
    have hy : y.id ≠ vid := hpre y (List.mem_cons_self y ys)
    have hys : ∀ z ∈ ys, z.id ≠ vid := fun z hz => hpre z (List.mem_cons_of_mem y hz)
    have ihe : replaceFirstById vid nr (ys.append (x :: post)) = (ys ++ nr :: post, true) :=
      ih x post hys hx
    simp only [List.cons_append, replaceFirstById, if_neg hy, ihe]

lemma rfb_none (vid : String) (nr : Vocab) :
    ∀ rows : List Vocab, (∀ r ∈ rows, r.id ≠ vid) →
      replaceFirstById vid nr rows = (rows, false) := by
  intro rows
  induction rows with
  | nil => intro _; rfl
  | cons r rs ih =>
    intro h
    have hr : r.id ≠ vid := h r (by simp)
    have hrs : ∀ z ∈ rs, z.id ≠ vid := fun z hz => h z (by simp [hz])
    simp [replaceFirstById, if_neg hr, ih hrs]

lemma upsert_ids_step (rows : List Vocab) (p : UpsertPayload) :
    idsOf (upsertRows rows p).1 = idsOf rows ∨
      (idsOf (upsertRows rows p).1 = idsOf rows ++ [(upsertRows rows p).2] ∧
        (upsertRows rows p).2 ∉ idsOf rows) := by
  simp only [upsertRows]
  cases hf : (replaceFirstById (resolveId rows p) (newRecOf rows p) rows).2
  · right
    obtain ⟨h1, h2⟩ := rfb_not_found _ _ rows hf
    refine ⟨?_, ?_⟩
    · simp only [hf, if_neg (Bool.false_ne_true), idsOf, List.map_append]
      rfl
    · intro hmem
      obtain ⟨r, hr, hrid⟩ := List.mem_map.mp hmem
      exact h2 r hr hrid
  · left
    simp only [hf, if_pos rfl]
    exact rfb_found_idsOf (resolveId rows p) (newRecOf rows p) rfl rows hf

lemma upsert_nodup_step (rows : List Vocab) (p : UpsertPayload)
    (h : (idsOf rows).Nodup) : (idsOf (upsertRows rows p).1).Nodup := by
  rcases upsert_ids_step rows p with heq | ⟨heq, hnot⟩
  · rwa [heq]
  · rw [heq]
    have hperm : List.Perm (idsOf rows ++ [(upsertRows rows p).2])
        ((upsertRows rows p).2 :: idsOf rows) := List.perm_append_singleton _ _
    exact hperm.nodup_iff.mpr (List.nodup_cons.mpr ⟨hnot, h⟩)

/-- C3: starting from a store whose ids are pairwise distinct, any
sequence of upserts (caller-supplied or allocated ids) preserves the
distinctness: each upsert either replaces the first record carrying
the incoming id (ids unchanged) or appends a record whose id matches
no existing record. -/
theorem upsert_sequence_id_nodup (ps : List UpsertPayload) (rows : List Vocab)
    (h : (idsOf rows).Nodup) : (idsOf (applyUpserts rows ps)).Nodup := by
  induction ps generalizing rows with
  | nil => exact h
  | cons p ps ih => exact ih _ (upsert_nodup_step rows p h)

/-- C3 (witness): three upserts (replace by id, allocate, create) on a
two-record store keep the ids pairwise distinct. -/
theorem upsert_sequence_id_nodup_witness :
  (idsOf [recA, recB]).Nodup ∧
  (idsOf (applyUpserts [recA, recB]
    [payloadA, { id := none, set := some "s", word := none, definition := none },
      payloadB])).Nodup :=
  ⟨by decide,
   upsert_sequence_id_nodup
     [payloadA, { id := none, set := some "s", word := none, definition := none },
       payloadB] [recA, recB] (by decide)⟩

lemma upsertRows_append (rows : List Vocab) (p : UpsertPayload)
    (h : ∀ r ∈ rows, r.id ≠ resolveId rows p) :
    (upsertRows rows p).1 = rows ++ [newRecOf rows p] := by
  simp only [upsertRows, rfb_none (resolveId rows p) (newRecOf rows p) rows h]
  simp

lemma upsertRows_replace (rows : List Vocab) (p : UpsertPayload)
    (pre : List Vocab) (x : Vocab) (post : List Vocab)
    (hrows : rows = pre ++ x :: post) (hx : x.id = resolveId rows p)
    (hpre : ∀ y ∈ pre, y.id ≠ resolveId rows p) :
    (upsertRows rows p).1 = pre ++ newRecOf rows p :: post := by
  have he := rfb_skip (resolveId rows p) (newRecOf rows p) pre x post hpre hx
  rw [← hrows] at he
  simp only [upsertRows, he]
  simp

/-- C5: `POST /api/vocabs` always succeeds; the resolved id is the
trimmed payload id, or a freshly allocated one when that is empty; the
stored record carries the resolved id and the trimmed optional fields
(an absent field is the empty string, so missing optional fields never
error); when no record carries the resolved id the new record is
appended, and otherwise the first record carrying it is replaced in
place. -/
theorem api_upsert_spec (rows : List Vocab) (p : UpsertPayload) :
  (api_upsert rows p).2.1 = true ∧
  (api_upsert rows p).2.2 =
    (if pyStrip (p.id.getD "") = "" then next_numeric_id rows
      else pyStrip (p.id.getD "")) ∧
  (newRecOf rows p).id = (api_upsert rows p).2.2 ∧
  (newRecOf rows p).set = pyStrip (p.set.getD "") ∧
  (newRecOf rows p).word = pyStrip (p.word.getD "") ∧
  (newRecOf rows p).definition = pyStrip (p.definition.getD "") ∧
  ((∀ r ∈ rows, r.id ≠ (api_upsert rows p).2.2) →
    (api_upsert rows p).1 = rows ++ [newRecOf rows p]) ∧
  (∀ (pre : List Vocab) (x : Vocab) (post : List Vocab),
    rows = pre ++ x :: post → x.id = (api_upsert rows p).2.2 →
    (∀ y ∈ pre, y.id ≠ (api_upsert rows p).2.2) →
    (api_upsert rows p).1 = pre ++ newRecOf rows p :: post) := by
  refine ⟨rfl, rfl, rfl, rfl, rfl, rfl, ?_, ?_⟩
  · intro h
    exact upsertRows_append rows p h
  · intro pre x post hrows hx hpre
    exact upsertRows_replace rows p pre x post hrows hx hpre

/-- C5 (witness): appending a new id, replacing an existing one, and a
payload with every optional field missing (stored as empty strings). -/
theorem api_upsert_spec_witness :
  ((api_upsert [recA] payloadB).1 = [recA, recB]) ∧
  ((api_upsert [recA, recB] payloadB).1 = [recA, recB]) ∧
  ((api_upsert []
      { id := none, set := none, word := none, definition := none }).1 =
    [{ id := "1", set := "", word := "", definition := "" }]) :=
  ⟨(api_upsert_spec [recA] payloadB).2.2.2.2.2.2.1 (by decide),
   (api_upsert_spec [recA, recB] payloadB).2.2.2.2.2.2.2 [recA] recB []
     (by decide) (by decide) (by decide),
   (api_upsert_spec []
       { id := none, set := none, word := none, definition := none }).2.2.2.2.2.2.1
     (by decide)⟩

/-- C7: `GET /api/test` samples from the pool that is the whole store
when `mode = "all"` or the set name is `"All"`, and exactly the records
of the named set otherwise; for any shuffle (permutation) of that
pool, taking the first `count` elements returns
`min count poolSize` items, each an element of the pool, and all from
the named set when `mode = "set"` and the set name is not `"All"`; a
pool smaller than `count` simply yields fewer items. -/
theorem api_test_sampling_spec (rows : List Vocab) (mode setName : String)
    (count : Int) (shuffled : List Vocab)
    (hp : List.Perm shuffled (poolFor rows mode setName)) :
  (api_test_items shuffled count).length =
    min count.toNat (poolFor rows mode setName).length ∧
  (∀ x ∈ api_test_items shuffled count, x ∈ poolFor rows mode setName) ∧
  (mode = "set" → setName ≠ "All" →
    ∀ x ∈ api_test_items shuffled count, x.set = setName) ∧
  ((mode = "all" ∨ setName = "All") → poolFor rows mode setName = rows) ∧
  (mode ≠ "all" → setName ≠ "All" →
    poolFor rows mode setName = rows.filter (fun r => r.set == setName)) := by
  have hpool : ∀ x ∈ api_test_items shuffled count, x ∈ poolFor rows mode setName := by
    intro x hx
    exact hp.subset (List.take_subset _ _ hx)
  refine ⟨?_, hpool, ?_, ?_, ?_⟩
  · simp [api_test_items, List.length_take, hp.length_eq]
  · intro hmode hset x hx
    have hxp := hpool x hx
    have hne : ¬ (mode = "all" ∨ setName = "All") := by
      rintro (h | h)
      · rw [hmode] at h; exact absurd h (by decide)
      · exact hset h
    rw [poolFor, if_neg hne] at hxp
    have hmem := (List.mem_filter.mp hxp).2
    simpa using hmem
  · intro h
    simp [poolFor, if_pos h]
  · intro h1 h2
    have hne : ¬ (mode = "all" ∨ setName = "All") := by
      rintro (h | h)
      · exact h1 h
      · exact h2 h
    simp [poolFor, if_neg hne]

/-- C7 (witness): a reversed two-record pool with `count = 1` yields
exactly one item from the pool. -/
theorem api_test_sampling_spec_witness :
  List.Perm [recB, recA] (poolFor [recA, recB] "all" "x") ∧
  (api_test_items [recB, recA] 1).length = 1 ∧
  recB ∈ poolFor [recA, recB] "all" "x" :=
  ⟨by decide,
   ((api_test_sampling_spec [recA, recB] "all" "x" 1 [recB, recA] (by decide)).1).trans
     (by decide),
   (api_test_sampling_spec [recA, recB] "all" "x" 1 [recB, recA] (by decide)).2.1
     recB (by decide)⟩

lemma toList_asString (l : List Char) : (List.asString l).toList = l := rfl

lemma asString_toList (s : String) : s.toList.asString = s := rfl

lemma escapeQuotes_eq_self {v : List Char} (h : '"' ∉ v) : escapeQuotes v = v := by
  induction v with
  | nil => rfl
  | cons c cs ih =>
    have hc : c ≠ '"' := fun hc => h (hc ▸ List.mem_cons_self c cs)
    have hcs : '"' ∉ cs := fun hm => h (List.mem_cons_of_mem c hm)
    simp [escapeQuotes, if_neg hc, ih hcs]

lemma quote_mem_escapeQuotes {v : List Char} (h : '"' ∈ v) : '"' ∈ escapeQuotes v := by
  induction v with
  | nil => cases h
  | cons c cs ih =>
    by_cases hc : c = '"'
    · simp [escapeQuotes, hc]
    · rcases List.mem_cons.mp h with he | hm
      · exact absurd he.symm hc
      · simp [escapeQuotes, if_neg hc, ih hm]

/-! Single-step reductions of `csvScan`, one per transition. -/

lemma scan_fs_quote (cs : List Char) (acc : List Char) (fs : List (List Char))
    (rows : List (List (List Char))) :
    csvScan ('"' :: cs) .fieldStart acc fs rows = csvScan cs .quoted [] fs rows := rfl

lemma scan_fs_comma (cs : List Char) (acc : List Char) (fs : List (List Char))
    (rows : List (List (List Char))) :
    csvScan (',' :: cs) .fieldStart acc fs rows
      = csvScan cs .fieldStart [] (fs ++ [[]]) rows := rfl

lemma scan_fs_other {c : Char} (h1 : c ≠ '"') (h2 : c ≠ ',')
    (h3 : ¬(c = '\n' ∨ c = '\r')) (cs : List Char) (acc : List Char)
    (fs : List (List Char)) (rows : List (List (List Char))) :
    csvScan (c :: cs) .fieldStart acc fs rows = csvScan cs .unquoted [c] fs rows := by
  simp [csvScan, h1, h2, h3]

lemma scan_unq_comma (cs : List Char) (acc : List Char) (fs : List (List Char))
    (rows : List (List (List Char))) :
    csvScan (',' :: cs) .unquoted acc fs rows
      = csvScan cs .fieldStart [] (fs ++ [acc]) rows := rfl

lemma scan_unq_newline (cs : List Char) (acc : List Char) (fs : List (List Char))
    (rows : List (List (List Char))) :
    csvScan ('\n' :: cs) .unquoted acc fs rows
      = csvScan cs .fieldStart [] [] (rows ++ [fs ++ [acc]]) := rfl

lemma scan_unq_other {c : Char} (h1 : c ≠ ',') (h2 : ¬(c = '\n' ∨ c = '\r'))
    (cs : List Char) (acc : List Char) (fs : List (List Char))
    (rows : List (List (List Char))) :
    csvScan (c :: cs) .unquoted acc fs rows
      = csvScan cs .unquoted (acc ++ [c]) fs rows := by
  simp [csvScan, h1, h2]

lemma scan_q_quote (cs : List Char) (acc : List Char) (fs : List (List Char))
    (rows : List (List (List Char))) :
    csvScan ('"' :: cs) .quoted acc fs rows = csvScan cs .afterQuote acc fs rows := rfl

lemma scan_q_other {c : Char} (h : c ≠ '"') (cs : List Char) (acc : List Char)
    (fs : List (List Char)) (rows : List (List (List Char))) :
    csvScan (c :: cs) .quoted acc fs rows
      = csvScan cs .quoted (acc ++ [c]) fs rows := by
  simp [csvScan, h]

lemma scan_aq_quote (cs : List Char) (acc : List Char) (fs : List (List Char))
    (rows : List (List (List Char))) :
    csvScan ('"' :: cs) .afterQuote acc fs rows
      = csvScan cs .quoted (acc ++ ['"']) fs rows := rfl

lemma scan_aq_comma (cs : List Char) (acc : List Char) (fs : List (List Char))
    (rows : List (List (List Char))) :
    csvScan (',' :: cs) .afterQuote acc fs rows
      = csvScan cs .fieldStart [] (fs ++ [acc]) rows := rfl

lemma scan_aq_newline (cs : List Char) (acc : List Char) (fs : List (List Char))
    (rows : List (List (List Char))) :
    csvScan ('\n' :: cs) .afterQuote acc fs rows
      = csvScan cs .fieldStart [] [] (rows ++ [fs ++ [acc]]) := rfl

lemma csvScan_quoted_escape (v : List Char) :
    ∀ (rest acc : List Char) (fs : List (List Char)) (rows : List (List (List Char))),
      csvScan (escapeQuotes v ++ rest) .quoted acc fs rows
        = csvScan rest .quoted (acc ++ v) fs rows := by
  induction v with
  | nil => intro rest acc fs rows; simp [escapeQuotes]
  | cons c cs ih =>
    intro rest acc fs rows
    by_cases hc : c = '"'
    · subst hc
      have he : escapeQuotes ('"' :: cs) ++ rest
          = '"' :: ('"' :: (escapeQuotes cs ++ rest)) := by
        simp [escapeQuotes]
      rw [he, scan_q_quote, scan_aq_quote, ih rest (acc ++ ['"']) fs rows,
        List.append_assoc]
      rfl
    · have he : escapeQuotes (c :: cs) ++ rest = c :: (escapeQuotes cs ++ rest) := by
        simp [escapeQuotes, if_neg hc]
      rw [he, scan_q_other hc, ih rest (acc ++ [c]) fs rows, List.append_assoc]
      rfl

lemma csvScan_unquoted_run (v : List Char)
    (hv : ∀ c ∈ v, c ≠ ',' ∧ c ≠ '\n' ∧ c ≠ '\r') :
    ∀ (rest acc : List Char) (fs : List (List Char)) (rows : List (List (List Char))),
      csvScan (v ++ rest) .unquoted acc fs rows
        = csvScan rest .unquoted (acc ++ v) fs rows := by
  induction v with
  | nil => intro rest acc fs rows; simp
  | cons c cs ih =>
    intro rest acc fs rows
    obtain ⟨h1, h2, h3⟩ := hv c (List.mem_cons_self c cs)
    have hcs : ∀ x ∈ cs, x ≠ ',' ∧ x ≠ '\n' ∧ x ≠ '\r' :=
      fun x hx => hv x (List.mem_cons_of_mem c hx)
    rw [List.cons_append, scan_unq_other h1 (by tauto),
      ih hcs rest (acc ++ [c]) fs rows, List.append_assoc]
    rfl

lemma ensureQuotes_forced (v : List Char) :
    ensureQuotesL v true = '"' :: (escapeQuotes v ++ ['"']) := by
  simp [ensureQuotesL]

/-- A field whose escaped text needs no quoting has no special
characters at all. -/
lemma unquoted_field_plain {v : List Char}
    (h : (escapeQuotes v).any (fun c => c = ',' || c = '"' || c = '\n') = false) :
    escapeQuotes v = v ∧ ∀ c ∈ v, c ≠ ',' ∧ c ≠ '"' ∧ c ≠ '\n' := by
  have hq : '"' ∉ v := by
    intro hm
    have := List.any_eq_false.mp h '"' (quote_mem_escapeQuotes hm)
    simp at this
  have he : escapeQuotes v = v := escapeQuotes_eq_self hq
  refine ⟨he, ?_⟩
  intro c hc
  have hcm : c ∈ escapeQuotes v := by rw [he]; exact hc
  have hno := List.any_eq_false.mp h c hcm
  simp at hno
  exact ⟨hno.1.1, hno.1.2, hno.2⟩

lemma scanField_comma (v : List Char) (hv : '\r' ∉ v) (rest : List Char)
    (fs : List (List Char)) (rows : List (List (List Char))) :
    csvScan (ensureQuotesL v false ++ (',' :: rest)) .fieldStart [] fs rows
      = csvScan rest .fieldStart [] (fs ++ [v]) rows := by
  by_cases hq : (escapeQuotes v).any (fun c => c = ',' || c = '"' || c = '\n') = true
  · have he : ensureQuotesL v false ++ (',' :: rest)
        = '"' :: (escapeQuotes v ++ ('"' :: (',' :: rest))) := by
      simp [ensureQuotesL, hq]
    rw [he, scan_fs_quote, csvScan_quoted_escape v ('"' :: (',' :: rest)) [] fs rows,
      scan_q_quote, scan_aq_comma]
    simp
  · have hq2 : (escapeQuotes v).any (fun c => c = ',' || c = '"' || c = '\n') = false :=
      Bool.eq_false_iff.mpr hq
    obtain ⟨he, hplain⟩ := unquoted_field_plain hq2
    have hq3 : (v.any (fun c => c = ',' || c = '"' || c = '\n')) = false := by
      rw [← he]; exact hq2
    have hens : ensureQuotesL v false = v := by
      simp [ensureQuotesL, he, hq3]
    rw [hens]
    cases v with
    | nil => rw [List.nil_append, scan_fs_comma]
    | cons c cs =>
      obtain ⟨hc1, hcq, hc3⟩ := hplain c (List.mem_cons_self c cs)
      have hcr : c ≠ '\r' := fun hr => hv (hr ▸ List.mem_cons_self c cs)
      have hcsr : '\r' ∉ cs := fun hm => hv (List.mem_cons_of_mem c hm)
      have hcs : ∀ x ∈ cs, x ≠ ',' ∧ x ≠ '\n' ∧ x ≠ '\r' := by
        intro x hx
        obtain ⟨a, b, d⟩ := hplain x (List.mem_cons_of_mem c hx)
        exact ⟨a, d, fun hr => hcsr (hr ▸ hx)⟩
      rw [List.cons_append, scan_fs_other hcq hc1 (by tauto),
        csvScan_unquoted_run cs hcs (',' :: rest) [c] fs rows, scan_unq_comma]
      rfl

lemma scanField_last (v : List Char) (rest : List Char)
    (fs : List (List Char)) (rows : List (List (List Char))) :
    csvScan (ensureQuotesL v true ++ ('\n' :: rest)) .fieldStart [] fs rows
      = csvScan rest .fieldStart [] [] (rows ++ [fs ++ [v]]) := by
  have he : ensureQuotesL v true ++ ('\n' :: rest)
      = '"' :: (escapeQuotes v ++ ('"' :: ('\n' :: rest))) := by
    simp [ensureQuotes_forced]
  rw [he, scan_fs_quote, csvScan_quoted_escape v ('"' :: ('\n' :: rest)) [] fs rows,
    scan_q_quote, scan_aq_newline]
  simp

lemma scanRow (r : Vocab) (h : noCR r) (rest : List Char)
    (rows : List (List (List Char))) :
    csvScan (encodeRowL r ++ rest) .fieldStart [] [] rows
      = csvScan rest .fieldStart [] [] (rows ++ [recordFieldsL r]) := by
  obtain ⟨h1, h2, h3, _⟩ := h
  have he : encodeRowL r ++ rest
      = ensureQuotesL r.id.toList false ++
        (',' :: (ensureQuotesL r.set.toList false ++
          (',' :: (ensureQuotesL r.word.toList false ++
            (',' :: (ensureQuotesL r.definition.toList true ++ ('\n' :: rest))))))) := by
    simp [encodeRowL]
  rw [he, scanField_comma _ h1, scanField_comma _ h2, scanField_comma _ h3,
    scanField_last]
  simp [recordFieldsL]

lemma scanRows (rs : List Vocab) (h : ∀ r ∈ rs, noCR r) :
    ∀ rows : List (List (List Char)),
      csvScan (encodeRowsL rs) .fieldStart [] [] rows
        = rows ++ rs.map recordFieldsL := by
  induction rs with
  | nil => intro rows; simp [encodeRowsL, csvScan]
  | cons r rs ih =>
    intro rows
    have hr : noCR r := h r (List.mem_cons_self r rs)
    have hrs : ∀ x ∈ rs, noCR x := fun x hx => h x (List.mem_cons_of_mem r hx)
    rw [show encodeRowsL (r :: rs) = encodeRowL r ++ encodeRowsL rs from rfl,
      scanRow r hr, ih hrs]
    simp

lemma scanHeader (rest : List Char) (rows : List (List (List Char))) :
    csvScan (headerL ++ rest) .fieldStart [] [] rows
      = csvScan rest .fieldStart [] []
          (rows ++ [["id".toList, "set".toList, "word".toList, "definition".toList]]) := rfl

lemma rowVocab_four (i s w d : String) :
    rowVocab ["id", "set", "word", "definition"] [i, s, w, d] = ⟨i, s, w, d⟩ := by
  by_cases hd : d = ""
  · subst hd
    rfl
  · have hdg : dget ["id", "set", "word", "definition"] [i, s, w, d] "definition" = d := rfl
    simp only [rowVocab, hdg, if_neg hd]
    rfl

/-- C2: the codec round-trips: for every record list whose fields may
contain commas, double quotes, or newlines (any characters except a
bare carriage return), decoding the encoded text with standard
quoted-field CSV parsing yields the records unchanged. -/
theorem decode_encode_roundtrip (rs : List Vocab) (h : ∀ r ∈ rs, noCR r) :
    read_csv (write_csv rs) = some rs := by
  have htext : (write_csv rs).toList = headerL ++ encodeRowsL rs := rfl
  have hscan : csvScan ((write_csv rs).toList) .fieldStart [] [] []
      = ["id".toList, "set".toList, "word".toList, "definition".toList]
        :: rs.map recordFieldsL := by
    rw [htext, scanHeader, scanRows rs h]
    simp
  have hparse : parseCSV (write_csv rs)
      = ["id", "set", "word", "definition"]
        :: rs.map (fun r => [r.id, r.set, r.word, r.definition]) := by
    simp only [parseCSV, hscan, List.map_cons, List.map_map]
    rfl
  have hmap : (rs.map (fun r => [r.id, r.set, r.word, r.definition])).map
      (rowVocab ["id", "set", "word", "definition"]) = rs := by
    rw [List.map_map]
    have hfun : (rowVocab ["id", "set", "word", "definition"] ∘
        fun r : Vocab => [r.id, r.set, r.word, r.definition]) = id := by
      funext r
      exact rowVocab_four r.id r.set r.word r.definition
    rw [hfun, List.map_id]
  simp only [read_csv, hparse]
  rw [if_pos (Or.inr (by decide))]
  rw [hmap]

def roundTripSample : List Vocab :=
  [ { id := "a,b", set := "he said \"hi\"", word := "line1\nline2", definition := "" },
    { id := "", set := " x ", word := "", definition := "multi,\nline \"q\"" } ]

/-- C2 (witness): a concrete record list exercising embedded commas,
escaped quotes, newlines, surrounding spaces and empty fields. -/
theorem decode_encode_roundtrip_witness :
  (∀ r ∈ roundTripSample, noCR r) ∧
  read_csv (write_csv roundTripSample) = some roundTripSample :=
  ⟨by decide, decode_encode_roundtrip roundTripSample (by decide)⟩

end VocaBox
